import Mathlib

/-!
Shallow embedding of `create_wallpaper.py` (spanpaper repository).

The program is a single `main` function that:
  * checks the CLI argument count and that `len(gaps_in) == len(monitors) - 1`
    (exiting with code 1 otherwise, before any image I/O),
  * derives per-monitor physical sizes `width_in`, `height_in` from the
    diagonal and the aspect ratio (lines 106-109),
  * derives `total_width_in`, `max_height_in` (lines 112, 115),
  * derives per-monitor scaled pixel sizes and the output canvas dimensions
    (lines 121-127),
  * crops the input image to the layout aspect ratio (lines 138-163),
  * loops over the monitors computing normalized sampling fractions and
    bottom-aligned paste positions (lines 174-217).

Python floats are modelled as rationals (`ℚ`), except for the physical-size
derivation, which uses `Real.sqrt` and is modelled over `ℝ` exactly as
written in the source.  Python `int(round(x))` is modelled by Lean `round`
(the tie-breaking convention differs from the Python round-half-to-even rule, but
no statement below depends on the tie behaviour, since the same `round` is
used on both the code side and the spec-formula side).  Python `//` is
`Int.fdiv` (floor division).  Division by zero is total (`x / 0 = 0`) in
`ℚ`, where Python would raise `ZeroDivisionError`; theorems that depend on
a division avoid the zero denominator by hypothesis.

The Python code stores the derived `width_in`/`height_in` floats back into
the monitor dictionary; the monitor record below therefore carries them as
fields (every float is a rational), and the derivation itself is the pair
`physWidth_in` / `physHeight_in` over `ℝ`.
-/

namespace CreateWallpaper

/-- One monitor record, mirroring the Python dict: the seven configured
fields (lines 54-61) plus the two derived physical sizes that lines
108-109 store back into the dict. -/
structure Monitor where
  width : ℤ
  height : ℤ
  scaling : ℚ
  size_in : ℚ
  aspect_w : ℤ
  aspect_h : ℤ
  offset_bottom : ℚ
  width_in : ℚ
  height_in : ℚ
deriving DecidableEq

/-- Physical width derivation of line 108:
`m["size_in"] * m["aspect_w"] / sqrt(m["aspect_w"]**2 + m["aspect_h"]**2)`. -/
noncomputable def physWidth_in (size_in : ℝ) (aspect_w aspect_h : ℤ) : ℝ :=
  size_in * (aspect_w : ℝ) / Real.sqrt ((aspect_w : ℝ) ^ 2 + (aspect_h : ℝ) ^ 2)

/-- Physical height derivation of line 109. -/
noncomputable def physHeight_in (size_in : ℝ) (aspect_w aspect_h : ℤ) : ℝ :=
  size_in * (aspect_h : ℝ) / Real.sqrt ((aspect_w : ℝ) ^ 2 + (aspect_h : ℝ) ^ 2)

/-- Python `max(...)` over a list (line 115 / line 127): the maximum of a
nonempty list; the default is never reached by the program (Python raises
on an empty sequence). -/
def pyMax {α : Type} [LinearOrder α] (dflt : α) : List α → α
  | [] => dflt
  | [x] => x
  | x :: y :: rest => max x (pyMax dflt (y :: rest))

/-- Line 122: `int(round(m["width"] / m["scaling"]))`. -/
def width_scaled (m : Monitor) : ℤ :=
  round ((m.width : ℚ) / m.scaling)

/-- Line 123: `int(round(m["height"] / m["scaling"]))`. -/
def height_scaled (m : Monitor) : ℤ :=
  round ((m.height : ℚ) / m.scaling)

/-- The quantity maximised on line 115: `m["height_in"] + m["offset_bottom"]`. -/
def effective_top (m : Monitor) : ℚ :=
  m.height_in + m.offset_bottom

/-- Line 112: `sum(m["width_in"] for m in monitors) + sum(gaps_in)`. -/
def total_width_in (ms : List Monitor) (gaps : List ℚ) : ℚ :=
  (ms.map Monitor.width_in).sum + gaps.sum

/-- Line 115: `max(m["height_in"] + m["offset_bottom"] for m in monitors)`. -/
def max_height_in (ms : List Monitor) : ℚ :=
  pyMax 0 (ms.map effective_top)

/-- Line 126: `sum(m["width_scaled"] for m in monitors)`. -/
def total_output_width (ms : List Monitor) : ℤ :=
  (ms.map width_scaled).sum

/-- Line 127: `max(m["height_scaled"] for m in monitors)`. -/
def output_height (ms : List Monitor) : ℤ :=
  pyMax 0 (ms.map height_scaled)

/-- Line 140: `layout_aspect = total_width_in / max_height_in`. -/
def layout_aspect (ms : List Monitor) (gaps : List ℚ) : ℚ :=
  total_width_in ms gaps / max_height_in ms

/-- Line 139: `input_aspect = input_w / input_h`. -/
def input_aspect (input_w input_h : ℤ) : ℚ :=
  (input_w : ℚ) / (input_h : ℚ)

/-- Lines 144-160: the crop box `(left, upper, right, lower)` selected by
comparing the input aspect ratio with the layout aspect ratio.  Python `//`
is floor division, hence `Int.fdiv`. -/
def crop_box (input_w input_h : ℤ) (la : ℚ) : ℤ × ℤ × ℤ × ℤ :=
  if input_aspect input_w input_h > la then
    let new_input_w : ℤ := round ((input_h : ℚ) * la)
    let left : ℤ := Int.fdiv (input_w - new_input_w) 2
    (left, 0, left + new_input_w, input_h)
  else if input_aspect input_w input_h < la then
    let new_input_h : ℤ := round ((input_w : ℚ) / la)
    let top : ℤ := Int.fdiv (input_h - new_input_h) 2
    (0, top, input_w, top + new_input_h)
  else
    (0, 0, input_w, input_h)

/-- Width of a crop box `(left, upper, right, lower)`. -/
def box_w (b : ℤ × ℤ × ℤ × ℤ) : ℤ := b.2.2.1 - b.1

/-- Height of a crop box `(left, upper, right, lower)`. -/
def box_h (b : ℤ × ℤ × ℤ × ℤ) : ℤ := b.2.2.2 - b.2.1

/-- Line 180: `left_frac = running_inch_x / total_width_in`. -/
def left_frac (r t : ℚ) : ℚ := r / t

/-- Line 181: `right_frac = (running_inch_x + m["width_in"]) / total_width_in`. -/
def right_frac (r t : ℚ) (m : Monitor) : ℚ := (r + m.width_in) / t

/-- Line 188: `offset_frac = m["offset_bottom"] / max_height_in`. -/
def offset_frac (m : Monitor) (mh : ℚ) : ℚ := m.offset_bottom / mh

/-- Line 191: `height_frac = m["height_in"] / max_height_in`. -/
def height_frac (m : Monitor) (mh : ℚ) : ℚ := m.height_in / mh

/-- Line 194: `bottom_frac = 1.0 - offset_frac`. -/
def bottom_frac (m : Monitor) (mh : ℚ) : ℚ := 1 - offset_frac m mh

/-- Line 195: `top_frac = bottom_frac - height_frac`. -/
def top_frac (m : Monitor) (mh : ℚ) : ℚ := bottom_frac m mh - height_frac m mh

/-- Normalized sample rectangle of one monitor (fractions of the cropped
source image), as computed on lines 180-195. -/
structure SampleRect where
  left : ℚ
  right : ℚ
  top : ℚ
  bot : ℚ
deriving DecidableEq

/-- Paste position of one monitor in the output canvas (line 209). -/
structure Placement where
  x : ℤ
  y : ℤ
deriving DecidableEq

/-- The per-monitor loop of lines 174-217.  Arguments `t`, `mh`, `oh` are
`total_width_in`, `max_height_in`, `output_height`; `r` and `cx` are the
loop accumulators `running_inch_x` and `current_x`.  Line 216 adds
`gaps_in[i]` only while gaps remain, which the `headD 0` / `tail` pair
reproduces: once the gap list is exhausted nothing is added. -/
def mainLoop (t mh : ℚ) (oh : ℤ) :
    List Monitor → List ℚ → ℚ → ℤ → List (SampleRect × Placement)
  | [], _, _, _ => []
  | m :: rest, gaps, r, cx =>
    (⟨left_frac r t, right_frac r t m, top_frac m mh, bottom_frac m mh⟩,
     ⟨cx, oh - height_scaled m⟩)
    :: mainLoop t mh oh rest gaps.tail (r + m.width_in + gaps.headD 0) (cx + width_scaled m)

/-- Value of the accumulator `running_inch_x` at the start of iteration `i`
(closed form of lines 175, 215-217): the widths of the previous monitors
plus the gaps consumed so far. -/
def running_inch_x (ms : List Monitor) (gaps : List ℚ) (i : ℕ) : ℚ :=
  ((ms.map Monitor.width_in).take i).sum + (gaps.take i).sum

/-- Value of the accumulator `current_x` at the start of iteration `i`
(closed form of lines 174, 212): the scaled widths of the previous
monitors. -/
def current_x (ms : List Monitor) (i : ℕ) : ℤ :=
  ((ms.map width_scaled).take i).sum

/-- Sample rectangles of all monitors, in order (the fraction part of the
main loop, run with the global quantities of the program). -/
def sampleRects (ms : List Monitor) (gaps : List ℚ) : List SampleRect :=
  (mainLoop (total_width_in ms gaps) (max_height_in ms) (output_height ms) ms gaps 0 0).map
    Prod.fst

/-- Paste positions of all monitors, in order (the placement part of the
main loop, run with the global quantities of the program). -/
def placements (ms : List Monitor) (gaps : List ℚ) : List Placement :=
  (mainLoop (total_width_in ms gaps) (max_height_in ms) (output_height ms) ms gaps 0 0).map
    Prod.snd

/-- The two fatal configuration failures of `main` (lines 94-100): wrong
CLI argument count, and gap/monitor count mismatch.  Both print a message
and `sys.exit(1)`. -/
inductive ConfigError
  | usage
  | gapMismatch
deriving DecidableEq

/-- Decoded source-image dimensions (line 134). -/
structure Img where
  w : ℤ
  h : ℤ
deriving DecidableEq

/-- Everything `main` computes on a successful run: the output canvas
dimensions (line 169), the aspect crop box (lines 144-163), and the
per-monitor sample rectangles and paste positions (lines 174-217). -/
structure Output where
  canvas_w : ℤ
  canvas_h : ℤ
  crop : ℤ × ℤ × ℤ × ℤ
  rects : List SampleRect
  places : List Placement
deriving DecidableEq

/-- The control flow of `main` (lines 93-220): the argument-count check
(line 94) and the gap-count check (line 98) are the only exits besides
success; both happen before the image is opened (line 133), so the result
of a failing run does not depend on `img`.  The gap-count comparison is
the Python `len(gaps_in) != len(monitors) - 1` over `int`, hence the cast
to `ℤ`. -/
def runMain (argc : ℕ) (ms : List Monitor) (gaps : List ℚ) (img : Img) :
    Except ConfigError Output :=
  if argc < 3 then .error .usage
  else if (gaps.length : ℤ) ≠ (ms.length : ℤ) - 1 then .error .gapMismatch
  else
    .ok ⟨total_output_width ms, output_height ms,
         crop_box img.w img.h (layout_aspect ms gaps),
         sampleRects ms gaps, placements ms gaps⟩

/-! ### Helper lemmas -/

theorem sum_take_succ_headD (l : List ℚ) (i : ℕ) :
    (l.take (i + 1)).sum = l.headD 0 + (l.tail.take i).sum := by
  cases l with
  | nil => simp
  | cons x xs => simp [List.take_succ_cons]

theorem le_pyMax {α : Type} [LinearOrder α] (d : α) (l : List α) :
    ∀ x ∈ l, x ≤ pyMax d l := by
  induction l with
  | nil => simp
  | cons x xs ih =>
    cases xs with
    | nil => simp [pyMax]
    | cons y rest =>
      intro z hz
      rcases List.mem_cons.mp hz with hzx | hzt
      · exact hzx ▸ le_max_left _ _
      · exact le_trans (ih z hzt) (le_max_right _ _)

theorem pyMax_mem {α : Type} [LinearOrder α] (d : α) (l : List α) (h : l ≠ []) :
    pyMax d l ∈ l := by
  induction l with
  | nil => exact absurd rfl h
  | cons x xs ih =>
    cases xs with
    | nil => simp [pyMax]
    | cons y rest =>
      rcases max_choice x (pyMax d (y :: rest)) with hc | hc
      · rw [show pyMax d (x :: y :: rest) = max x (pyMax d (y :: rest)) from rfl, hc]
        exact List.mem_cons_self x _
      · rw [show pyMax d (x :: y :: rest) = max x (pyMax d (y :: rest)) from rfl, hc]
        exact List.mem_cons_of_mem x (ih (by simp))

theorem mem_of_lookup {α : Type} (l : List α) (i : ℕ) (x : α) (h : l[i]? = some x) :
    x ∈ l := by
  rcases List.getElem?_eq_some.mp h with ⟨h2, rfl⟩
  exact List.getElem_mem h2

theorem lookup_lt_length {α : Type} (l : List α) (i : ℕ) (x : α) (h : l[i]? = some x) :
    i < l.length :=
  (List.getElem?_eq_some.mp h).1

theorem lookup_of_lt_length {α : Type} (l : List α) (i : ℕ) (h : i < l.length) :
    ∃ x, l[i]? = some x :=
  ⟨l[i], List.getElem?_eq_some.mpr ⟨h, rfl⟩⟩

theorem sum_take_le_sum (l : List ℚ) (h : ∀ x ∈ l, 0 ≤ x) (n : ℕ) :
    (l.take n).sum ≤ l.sum := by
  have hsplit : (l.take n).sum + (l.drop n).sum = l.sum := by
    rw [← List.sum_append, List.take_append_drop]
  have hd : 0 ≤ (l.drop n).sum :=
    List.sum_nonneg fun x hx => h x (List.drop_subset n l hx)
  linarith

theorem sum_take_nonneg (l : List ℚ) (h : ∀ x ∈ l, 0 ≤ x) (n : ℕ) :
    0 ≤ (l.take n).sum :=
  List.sum_nonneg fun x hx => h x (List.take_subset n l hx)

/-- Closed form of the main loop: the `i`-th entry is computed from the
`i`-th monitor with `running_inch_x` advanced by the widths of the previous monitors, and consumed gaps, and `current_x` advanced by the previous
scaled widths of previous monitors. -/
theorem mainLoop_lookup (t mh : ℚ) (oh : ℤ) :
    ∀ (ms : List Monitor) (gaps : List ℚ) (r : ℚ) (cx : ℤ) (i : ℕ) (m : Monitor),
      ms[i]? = some m →
      (mainLoop t mh oh ms gaps r cx)[i]? =
        some (⟨left_frac (r + running_inch_x ms gaps i) t,
               right_frac (r + running_inch_x ms gaps i) t m,
               top_frac m mh, bottom_frac m mh⟩,
              ⟨cx + current_x ms i, oh - height_scaled m⟩) := by
  intro ms
  induction ms with
  | nil => intro gaps r cx i m h; simp at h
  | cons m0 rest ih =>
    intro gaps r cx i m h
    cases i with
    | zero =>
      have hm : m0 = m := by simpa using h
      subst hm
      simp [mainLoop, running_inch_x, current_x, left_frac, right_frac]
    | succ i =>
      have htail : rest[i]? = some m := by simpa using h
      have hr : r + m0.width_in + gaps.headD 0 + running_inch_x rest gaps.tail i =
          r + running_inch_x (m0 :: rest) gaps (i + 1) := by
        simp only [running_inch_x, List.map_cons, List.take_succ_cons, List.sum_cons,
          sum_take_succ_headD]
        ring
      have hcx : cx + width_scaled m0 + current_x rest i =
          cx + current_x (m0 :: rest) (i + 1) := by
        simp only [current_x, List.map_cons, List.take_succ_cons, List.sum_cons]
        ring
      calc (mainLoop t mh oh (m0 :: rest) gaps r cx)[i + 1]?
          = (mainLoop t mh oh rest gaps.tail (r + m0.width_in + gaps.headD 0)
              (cx + width_scaled m0))[i]? := by
            simp [mainLoop]
        _ = some (⟨left_frac (r + running_inch_x (m0 :: rest) gaps (i + 1)) t,
                   right_frac (r + running_inch_x (m0 :: rest) gaps (i + 1)) t m,
                   top_frac m mh, bottom_frac m mh⟩,
                  ⟨cx + current_x (m0 :: rest) (i + 1), oh - height_scaled m⟩) := by
            rw [ih gaps.tail (r + m0.width_in + gaps.headD 0) (cx + width_scaled m0) i m htail,
              hr, hcx]

/-- The `i`-th sample rectangle, in closed form. -/
theorem sampleRects_lookup (ms : List Monitor) (gaps : List ℚ) (i : ℕ) (m : Monitor)
    (h : ms[i]? = some m) :
    (sampleRects ms gaps)[i]? =
      some ⟨left_frac (running_inch_x ms gaps i) (total_width_in ms gaps),
            right_frac (running_inch_x ms gaps i) (total_width_in ms gaps) m,
            top_frac m (max_height_in ms), bottom_frac m (max_height_in ms)⟩ := by
  unfold sampleRects
  rw [List.getElem?_map,
    mainLoop_lookup (total_width_in ms gaps) (max_height_in ms) (output_height ms)
      ms gaps 0 0 i m h]
  simp

/-- The `i`-th paste position, in closed form. -/
theorem placements_lookup (ms : List Monitor) (gaps : List ℚ) (i : ℕ) (m : Monitor)
    (h : ms[i]? = some m) :
    (placements ms gaps)[i]? =
      some ⟨current_x ms i, output_height ms - height_scaled m⟩ := by
  unfold placements
  rw [List.getElem?_map,
    mainLoop_lookup (total_width_in ms gaps) (max_height_in ms) (output_height ms)
      ms gaps 0 0 i m h]
  simp

/-! ### Concrete configurations used by the witnesses.

Both monitors have a 4:3 aspect ratio, so the derived physical sizes are
rational and exactly representable: a 20-inch 4:3 panel is 16 by 12
inches, a 10-inch 4:3 panel is 8 by 6 inches. -/

def mon1 : Monitor := ⟨1920, 1080, 1, 20, 4, 3, 0, 16, 12⟩

def mon2 : Monitor := ⟨1000, 500, 2, 10, 4, 3, 1, 8, 6⟩

def wms : List Monitor := [mon1, mon2]

def wgaps : List ℚ := [1]

def wimg : Img := ⟨192, 108⟩

def wout : Output :=
  ⟨total_output_width wms, output_height wms,
   crop_box wimg.w wimg.h (layout_aspect wms wgaps),
   sampleRects wms wgaps, placements wms wgaps⟩

/-! ### Claim theorems -/

/-- C1: for every monitor in the layout, the normalized vertical sampling
range is computed exactly as `bottom_frac = 1 - offset_bottom_in/max_height_in`
and `top_frac = bottom_frac - height_in/max_height_in`, where
`max_height_in` is the maximum over all monitors of
`height_in + offset_bottom_in` (fractions measured top-to-bottom, 0 = top
of layout, 1 = bottom). -/
theorem vertical_sampling_range (ms : List Monitor) (gaps : List ℚ) (i : ℕ) (m : Monitor)
    (h : ms[i]? = some m) :
    ∃ rect : SampleRect, (sampleRects ms gaps)[i]? = some rect ∧
      rect.bot = 1 - m.offset_bottom / max_height_in ms ∧
      rect.top = rect.bot - m.height_in / max_height_in ms ∧
      (∀ m2 ∈ ms, m2.height_in + m2.offset_bottom ≤ max_height_in ms) ∧
      (∃ m2 ∈ ms, max_height_in ms = m2.height_in + m2.offset_bottom) := by
  refine ⟨_, sampleRects_lookup ms gaps i m h, ?_, ?_, ?_, ?_⟩
  · simp [bottom_frac, offset_frac]
  · simp [top_frac, bottom_frac, offset_frac, height_frac]
  · intro m2 hm2
    have := le_pyMax (0 : ℚ) (ms.map effective_top) (effective_top m2)
      (List.mem_map_of_mem effective_top hm2)
    simpa [max_height_in, effective_top] using this
  · have hne : ms.map effective_top ≠ [] := by
      have : i < ms.length := lookup_lt_length ms i m h
      cases ms with
      | nil => simp at this
      | cons a l => simp
    have hmem : pyMax (0 : ℚ) (ms.map effective_top) ∈ ms.map effective_top :=
      pyMax_mem 0 (ms.map effective_top) hne
    rcases List.mem_map.mp hmem with ⟨m2, hm2, hval⟩
    exact ⟨m2, hm2, by simp [max_height_in, ← hval, effective_top]⟩

/-- C1 witness: the theorem applied to the two-monitor configuration at
index 0. -/
theorem vertical_sampling_range_witness :
    wms[0]? = some mon1 ∧
    (∃ rect : SampleRect, (sampleRects wms wgaps)[0]? = some rect ∧
      rect.bot = 1 - mon1.offset_bottom / max_height_in wms ∧
      rect.top = rect.bot - mon1.height_in / max_height_in wms ∧
      (∀ m2 ∈ wms, m2.height_in + m2.offset_bottom ≤ max_height_in wms) ∧
      (∃ m2 ∈ wms, max_height_in wms = m2.height_in + m2.offset_bottom)) :=
  ⟨by decide, vertical_sampling_range wms wgaps 0 mon1 (by decide)⟩

/-- C2: for positive diagonal and aspect components, the derived physical
sizes satisfy `width_in^2 + height_in^2 = diagonal_in^2` and
`width_in / height_in = aspect_w / aspect_h` (exactly, over `ℝ`; the
floating-point computation of lines 106-109 realizes this up to rounding). -/
theorem phys_size_pythagorean (s : ℝ) (aw ah : ℤ) (hs : 0 < s) (hw : 0 < aw) (hh : 0 < ah) :
    physWidth_in s aw ah ^ 2 + physHeight_in s aw ah ^ 2 = s ^ 2 ∧
    physWidth_in s aw ah / physHeight_in s aw ah = (aw : ℝ) / (ah : ℝ) := by
  have hawr : (0 : ℝ) < (aw : ℝ) := by exact_mod_cast hw
  have hahr : (0 : ℝ) < (ah : ℝ) := by exact_mod_cast hh
  have hpos : (0 : ℝ) < (aw : ℝ) ^ 2 + (ah : ℝ) ^ 2 := by positivity
  have hdpos : 0 < Real.sqrt ((aw : ℝ) ^ 2 + (ah : ℝ) ^ 2) := Real.sqrt_pos.mpr hpos
  have hd2 : Real.sqrt ((aw : ℝ) ^ 2 + (ah : ℝ) ^ 2) ^ 2 = (aw : ℝ) ^ 2 + (ah : ℝ) ^ 2 :=
    Real.sq_sqrt (le_of_lt hpos)
  have hdne : Real.sqrt ((aw : ℝ) ^ 2 + (ah : ℝ) ^ 2) ≠ 0 := ne_of_gt hdpos
  have hsne : s ≠ 0 := ne_of_gt hs
  have hahne : (ah : ℝ) ≠ 0 := ne_of_gt hahr
  constructor
  · unfold physWidth_in physHeight_in
    field_simp
    ring
  · unfold physWidth_in physHeight_in
    field_simp
    ring

/-- C2 witness: a 5-inch 4:3 panel is exactly 4 by 3 inches. -/
theorem phys_size_pythagorean_witness :
    (0 : ℝ) < 5 ∧ (0 : ℤ) < 4 ∧ (0 : ℤ) < 3 ∧
    (physWidth_in 5 4 3 ^ 2 + physHeight_in 5 4 3 ^ 2 = (5 : ℝ) ^ 2 ∧
     physWidth_in 5 4 3 / physHeight_in 5 4 3 = ((4 : ℤ) : ℝ) / ((3 : ℤ) : ℝ)) :=
  ⟨by norm_num, by norm_num, by norm_num,
   phys_size_pythagorean 5 4 3 (by norm_num) (by norm_num) (by norm_num)⟩

/-- C3: on every successful run the output canvas width equals the sum
over monitors of `round(width_px / scaling)` (rounding applied per monitor
before summing), and the canvas height is the maximum over monitors of
`round(height_px / scaling)`. -/
theorem output_canvas_dims (argc : ℕ) (ms : List Monitor) (gaps : List ℚ) (img : Img)
    (out : Output) (h : runMain argc ms gaps img = .ok out) :
    out.canvas_w = (ms.map (fun m => round ((m.width : ℚ) / m.scaling))).sum ∧
    (∀ m ∈ ms, round ((m.height : ℚ) / m.scaling) ≤ out.canvas_h) ∧
    ∃ m ∈ ms, out.canvas_h = round ((m.height : ℚ) / m.scaling) := by
  unfold runMain at h
  split_ifs at h with h1 h2
  have hlen : (gaps.length : ℤ) = (ms.length : ℤ) - 1 := not_ne_iff.mp h2
  have hms : ms ≠ [] := by
    cases ms with
    | nil => simp at hlen
    | cons a l => simp
  have hout : out = ⟨total_output_width ms, output_height ms,
      crop_box img.w img.h (layout_aspect ms gaps),
      sampleRects ms gaps, placements ms gaps⟩ := by
    cases h; rfl
  subst hout
  refine ⟨rfl, ?_, ?_⟩
  · intro m hm
    have := le_pyMax (0 : ℤ) (ms.map height_scaled) (height_scaled m)
      (List.mem_map_of_mem height_scaled hm)
    simpa [output_height, height_scaled] using this
  · have hne : ms.map height_scaled ≠ [] := by
      cases ms with
      | nil => exact absurd rfl hms
      | cons a l => simp
    have hmem : pyMax (0 : ℤ) (ms.map height_scaled) ∈ ms.map height_scaled :=
      pyMax_mem 0 (ms.map height_scaled) hne
    rcases List.mem_map.mp hmem with ⟨m, hm, hval⟩
    exact ⟨m, hm, by simp [output_height, ← hval, height_scaled]⟩

/-- C3 witness: the theorem applied to the two-monitor configuration
(canvas 2420 by 1080). -/
theorem output_canvas_dims_witness :
    runMain 3 wms wgaps wimg = .ok wout ∧
    (wout.canvas_w = (wms.map (fun m => round ((m.width : ℚ) / m.scaling))).sum ∧
     (∀ m ∈ wms, round ((m.height : ℚ) / m.scaling) ≤ wout.canvas_h) ∧
     ∃ m ∈ wms, wout.canvas_h = round ((m.height : ℚ) / m.scaling)) :=
  ⟨rfl, output_canvas_dims 3 wms wgaps wimg wout rfl⟩

/-- C4: crop-branch selection is exhaustive on the comparison of
`input_aspect` with `layout_aspect`: strictly greater gives a horizontal
crop of width `round(input_h * layout_aspect)` with height unchanged,
strictly less gives a vertical crop of height `round(input_w / layout_aspect)`
with width unchanged, and exact equality leaves the image untouched. -/
theorem crop_branch_selection (ms : List Monitor) (gaps : List ℚ) (input_w input_h : ℤ) :
    (input_aspect input_w input_h > layout_aspect ms gaps →
      box_w (crop_box input_w input_h (layout_aspect ms gaps)) =
          round ((input_h : ℚ) * layout_aspect ms gaps) ∧
      box_h (crop_box input_w input_h (layout_aspect ms gaps)) = input_h) ∧
    (input_aspect input_w input_h < layout_aspect ms gaps →
      box_h (crop_box input_w input_h (layout_aspect ms gaps)) =
          round ((input_w : ℚ) / layout_aspect ms gaps) ∧
      box_w (crop_box input_w input_h (layout_aspect ms gaps)) = input_w) ∧
    (input_aspect input_w input_h = layout_aspect ms gaps →
      crop_box input_w input_h (layout_aspect ms gaps) = (0, 0, input_w, input_h)) := by
  refine ⟨fun hcmp => ?_, fun hcmp => ?_, fun hcmp => ?_⟩
  · simp only [crop_box, if_pos hcmp, box_w, box_h]
    constructor <;> ring
  · have hn : ¬ input_aspect input_w input_h > layout_aspect ms gaps := lt_asymm hcmp
    simp only [crop_box, if_neg hn, if_pos hcmp, box_w, box_h]
    constructor <;> ring
  · have h1 : ¬ input_aspect input_w input_h > layout_aspect ms gaps := by
      rw [hcmp]; exact lt_irrefl _
    have h2 : ¬ input_aspect input_w input_h < layout_aspect ms gaps := by
      rw [hcmp]; exact lt_irrefl _
    simp only [crop_box, if_neg h1, if_neg h2]

/-- C4 witness: the theorem applied to the two-monitor configuration and a
192 by 108 input image (no hypotheses to discharge; recorded for
concreteness). -/
theorem crop_branch_selection_witness :
    (input_aspect 192 108 > layout_aspect wms wgaps →
      box_w (crop_box 192 108 (layout_aspect wms wgaps)) =
          round ((108 : ℚ) * layout_aspect wms wgaps) ∧
      box_h (crop_box 192 108 (layout_aspect wms wgaps)) = 108) ∧
    (input_aspect 192 108 < layout_aspect wms wgaps →
      box_h (crop_box 192 108 (layout_aspect wms wgaps)) =
          round ((192 : ℚ) / layout_aspect wms wgaps) ∧
      box_w (crop_box 192 108 (layout_aspect wms wgaps)) = 192) ∧
    (input_aspect 192 108 = layout_aspect wms wgaps →
      crop_box 192 108 (layout_aspect wms wgaps) = (0, 0, 192, 108)) :=
  crop_branch_selection wms wgaps 192 108

theorem sum_take_succ_lookup {α : Type} [AddCommMonoid α] (l : List α) (i : ℕ) (x : α)
    (h : l[i]? = some x) : (l.take (i + 1)).sum = (l.take i).sum + x := by
  rw [List.take_succ, h]
  simp

/-- C5: for adjacent monitors `i` and `i+1`, the right fraction of monitor `i`
is the left-fraction input of monitor `i+1` before the gap is added to the
running inch offset; adding a positive gap strictly increases the running
inch offset between them, while the output paste positions stay exactly
adjacent (no pixel gap). -/
theorem adjacent_rects_contiguous (ms : List Monitor) (gaps : List ℚ) (i : ℕ)
    (m m2 : Monitor) (h : ms[i]? = some m) (h2 : ms[i + 1]? = some m2)
    (hg : gaps.length + 1 = ms.length) :
    ∃ g, gaps[i]? = some g ∧
    ∃ r r2 : SampleRect,
      (sampleRects ms gaps)[i]? = some r ∧
      (sampleRects ms gaps)[i + 1]? = some r2 ∧
      r.right = (running_inch_x ms gaps i + m.width_in) / total_width_in ms gaps ∧
      running_inch_x ms gaps (i + 1) = running_inch_x ms gaps i + m.width_in + g ∧
      (0 < g → running_inch_x ms gaps i + m.width_in < running_inch_x ms gaps (i + 1)) ∧
      r2.left = running_inch_x ms gaps (i + 1) / total_width_in ms gaps ∧
    ∃ p p2 : Placement,
      (placements ms gaps)[i]? = some p ∧
      (placements ms gaps)[i + 1]? = some p2 ∧
      p2.x = p.x + width_scaled m := by
  have hi2 : i + 1 < ms.length := lookup_lt_length ms (i + 1) m2 h2
  have hig : i < gaps.length := by omega
  obtain ⟨g, hgap⟩ := lookup_of_lt_length gaps i hig
  have hwidth : (ms.map Monitor.width_in)[i]? = some m.width_in := by
    rw [List.getElem?_map, h]; rfl
  have hstep : running_inch_x ms gaps (i + 1) =
      running_inch_x ms gaps i + m.width_in + g := by
    unfold running_inch_x
    rw [sum_take_succ_lookup (ms.map Monitor.width_in) i m.width_in hwidth,
      sum_take_succ_lookup gaps i g hgap]
    ring
  refine ⟨g, hgap, _, _, sampleRects_lookup ms gaps i m h,
    sampleRects_lookup ms gaps (i + 1) m2 h2, rfl, hstep, ?_, rfl, ?_⟩
  · intro hgpos
    rw [hstep]
    linarith
  · have hws : (ms.map width_scaled)[i]? = some (width_scaled m) := by
      rw [List.getElem?_map, h]; rfl
    refine ⟨_, _, placements_lookup ms gaps i m h,
      placements_lookup ms gaps (i + 1) m2 h2, ?_⟩
    show current_x ms (i + 1) = current_x ms i + width_scaled m
    unfold current_x
    exact sum_take_succ_lookup (ms.map width_scaled) i (width_scaled m) hws

/-- C5 witness: the theorem applied to the two-monitor configuration at the
adjacent pair (0, 1). -/
theorem adjacent_rects_contiguous_witness :
    wms[0]? = some mon1 ∧ wms[1]? = some mon2 ∧ wgaps.length + 1 = wms.length ∧
    (∃ g, wgaps[0]? = some g ∧
     ∃ r r2 : SampleRect,
       (sampleRects wms wgaps)[0]? = some r ∧
       (sampleRects wms wgaps)[1]? = some r2 ∧
       r.right = (running_inch_x wms wgaps 0 + mon1.width_in) / total_width_in wms wgaps ∧
       running_inch_x wms wgaps 1 = running_inch_x wms wgaps 0 + mon1.width_in + g ∧
       (0 < g → running_inch_x wms wgaps 0 + mon1.width_in < running_inch_x wms wgaps 1) ∧
       r2.left = running_inch_x wms wgaps 1 / total_width_in wms wgaps ∧
     ∃ p p2 : Placement,
       (placements wms wgaps)[0]? = some p ∧
       (placements wms wgaps)[1]? = some p2 ∧
       p2.x = p.x + width_scaled mon1) :=
  ⟨by decide, by decide, by decide,
   adjacent_rects_contiguous wms wgaps 0 mon1 mon2 (by decide) (by decide) (by decide)⟩

/-- Monitor with its vertical offset replaced (used to state that paste
positions do not depend on the physical offsets). -/
def withOffset (m : Monitor) (o : ℚ) : Monitor :=
  { m with offset_bottom := o }

theorem mainLoop_snd_ignores_offsets (oh : ℤ) :
    ∀ (ms : List Monitor) (gaps : List ℚ) (t t2 mh mh2 : ℚ) (r r2 : ℚ) (cx : ℤ),
      (mainLoop t mh oh ms gaps r cx).map Prod.snd =
      (mainLoop t2 mh2 oh (ms.map (fun m => withOffset m 0)) gaps r2 cx).map Prod.snd := by
  intro ms
  induction ms with
  | nil => intro gaps t t2 mh mh2 r r2 cx; simp [mainLoop]
  | cons m rest ih =>
    intro gaps t t2 mh mh2 r r2 cx
    simp only [List.map_cons, mainLoop, List.map]
    rw [ih gaps.tail t t2 mh mh2 (r + m.width_in + gaps.headD 0)
      (r2 + (withOffset m 0).width_in + gaps.headD 0) (cx + width_scaled m)]
    rfl

theorem output_height_ignores_offsets (ms : List Monitor) :
    output_height (ms.map (fun m => withOffset m 0)) = output_height ms := by
  unfold output_height
  rw [List.map_map]
  rfl

theorem placements_ignore_offsets (ms : List Monitor) (gaps : List ℚ) :
    placements ms gaps = placements (ms.map (fun m => withOffset m 0)) gaps := by
  unfold placements
  rw [output_height_ignores_offsets ms]
  exact mainLoop_snd_ignores_offsets (output_height ms) ms gaps _ _ _ _ 0 0 0

/-- C6: the region of each monitor is pasted at horizontal offset equal to the
cumulative sum of the previous scaled widths of previous monitors (starting at 0) and
vertical offset `output_height - height_scaled` (bottom-aligned); the paste
positions do not depend on the physical bottom offsets of the monitors. -/
theorem paste_positions (ms : List Monitor) (gaps : List ℚ) (i : ℕ) (m : Monitor)
    (h : ms[i]? = some m) :
    ∃ p : Placement, (placements ms gaps)[i]? = some p ∧
      p.x = ((ms.map width_scaled).take i).sum ∧
      p.y = output_height ms - height_scaled m ∧
      placements ms gaps = placements (ms.map (fun m2 => withOffset m2 0)) gaps :=
  ⟨_, placements_lookup ms gaps i m h, rfl, rfl, placements_ignore_offsets ms gaps⟩

/-- C6 witness: the theorem applied to the two-monitor configuration at
index 1. -/
theorem paste_positions_witness :
    wms[1]? = some mon2 ∧
    (∃ p : Placement, (placements wms wgaps)[1]? = some p ∧
      p.x = ((wms.map width_scaled).take 1).sum ∧
      p.y = output_height wms - height_scaled mon2 ∧
      placements wms wgaps = placements (wms.map (fun m2 => withOffset m2 0)) wgaps) :=
  ⟨by decide, paste_positions wms wgaps 1 mon2 (by decide)⟩

/-- C10: under the data-model constraints (non-negative bottom offsets and
gaps, positive derived physical sizes), every normalized sample rectangle
lies inside the unit square, with `left ≤ right` and `top ≤ bot`. -/
theorem sample_rect_in_unit_box (ms : List Monitor) (gaps : List ℚ) (i : ℕ) (m : Monitor)
    (h : ms[i]? = some m)
    (hoff : ∀ m2 ∈ ms, 0 ≤ m2.offset_bottom)
    (hwpos : ∀ m2 ∈ ms, 0 < m2.width_in)
    (hhpos : ∀ m2 ∈ ms, 0 < m2.height_in)
    (hgap : ∀ g ∈ gaps, 0 ≤ g) :
    ∃ rect : SampleRect, (sampleRects ms gaps)[i]? = some rect ∧
      0 ≤ rect.left ∧ rect.left ≤ rect.right ∧ rect.right ≤ 1 ∧
      0 ≤ rect.top ∧ rect.top ≤ rect.bot ∧ rect.bot ≤ 1 := by
  have hm : m ∈ ms := mem_of_lookup ms i m h
  have hwnn : ∀ x ∈ ms.map Monitor.width_in, 0 ≤ x := by
    intro x hx
    rcases List.mem_map.mp hx with ⟨m2, hm2, rfl⟩
    exact le_of_lt (hwpos m2 hm2)
  have htpos : 0 < total_width_in ms gaps := by
    unfold total_width_in
    have h1 : 0 < (ms.map Monitor.width_in).sum := by
      refine List.sum_pos _ ?_ ?_
      · intro x hx
        rcases List.mem_map.mp hx with ⟨m2, hm2, rfl⟩
        exact hwpos m2 hm2
      · intro hemp
        rw [List.map_eq_nil_iff] at hemp
        subst hemp
        simp at hm
    have h2 : 0 ≤ gaps.sum := List.sum_nonneg hgap
    linarith
  have hmax : ∀ m2 ∈ ms, m2.height_in + m2.offset_bottom ≤ max_height_in ms := by
    intro m2 hm2
    have := le_pyMax (0 : ℚ) (ms.map effective_top) (effective_top m2)
      (List.mem_map_of_mem effective_top hm2)
    simpa [max_height_in, effective_top] using this
  have hHpos : 0 < max_height_in ms := by
    have h1 : 0 < m.height_in + m.offset_bottom := by
      have := hhpos m hm
      have := hoff m hm
      linarith
    exact lt_of_lt_of_le h1 (hmax m hm)
  have hrun_nonneg : 0 ≤ running_inch_x ms gaps i := by
    unfold running_inch_x
    have h1 := sum_take_nonneg (ms.map Monitor.width_in) hwnn i
    have h2 := sum_take_nonneg gaps hgap i
    linarith
  have hwidth : (ms.map Monitor.width_in)[i]? = some m.width_in := by
    rw [List.getElem?_map, h]; rfl
  have hrun_end : running_inch_x ms gaps i + m.width_in ≤ total_width_in ms gaps := by
    unfold running_inch_x total_width_in
    have h1 : ((ms.map Monitor.width_in).take i).sum + m.width_in =
        ((ms.map Monitor.width_in).take (i + 1)).sum :=
      (sum_take_succ_lookup (ms.map Monitor.width_in) i m.width_in hwidth).symm
    have h2 := sum_take_le_sum (ms.map Monitor.width_in) hwnn (i + 1)
    have h3 := sum_take_le_sum gaps hgap i
    linarith
  refine ⟨_, sampleRects_lookup ms gaps i m h, ?_, ?_, ?_, ?_, ?_, ?_⟩
  · exact div_nonneg hrun_nonneg (le_of_lt htpos)
  · show left_frac (running_inch_x ms gaps i) (total_width_in ms gaps) ≤
      right_frac (running_inch_x ms gaps i) (total_width_in ms gaps) m
    unfold left_frac right_frac
    have := hwpos m hm
    exact (div_le_div_iff_of_pos_right htpos).mpr (by linarith)
  · show right_frac (running_inch_x ms gaps i) (total_width_in ms gaps) m ≤ 1
    unfold right_frac
    exact (div_le_one htpos).mpr hrun_end
  · show 0 ≤ top_frac m (max_height_in ms)
    unfold top_frac bottom_frac offset_frac height_frac
    have h1 : (m.offset_bottom + m.height_in) / max_height_in ms ≤ 1 :=
      (div_le_one hHpos).mpr (by have := hmax m hm; linarith)
    have h2 : m.offset_bottom / max_height_in ms + m.height_in / max_height_in ms =
        (m.offset_bottom + m.height_in) / max_height_in ms := by ring
    linarith
  · show top_frac m (max_height_in ms) ≤ bottom_frac m (max_height_in ms)
    unfold top_frac height_frac
    have h1 : 0 ≤ m.height_in / max_height_in ms :=
      div_nonneg (le_of_lt (hhpos m hm)) (le_of_lt hHpos)
    linarith
  · show bottom_frac m (max_height_in ms) ≤ 1
    unfold bottom_frac offset_frac
    have h1 : 0 ≤ m.offset_bottom / max_height_in ms :=
      div_nonneg (hoff m hm) (le_of_lt hHpos)
    linarith

/-- C10 witness: the theorem applied to the two-monitor configuration at
index 1. -/
theorem sample_rect_in_unit_box_witness :
    wms[1]? = some mon2 ∧
    (∃ rect : SampleRect, (sampleRects wms wgaps)[1]? = some rect ∧
      0 ≤ rect.left ∧ rect.left ≤ rect.right ∧ rect.right ≤ 1 ∧
      0 ≤ rect.top ∧ rect.top ≤ rect.bot ∧ rect.bot ≤ 1) :=
  ⟨by decide,
   sample_rect_in_unit_box wms wgaps 1 mon2 (by decide) (by decide) (by decide)
     (by decide) (by decide)⟩

/-- C9: whenever the gap count differs from monitor count minus one, the
run fails (no `Output` is produced), and the result does not depend on the
source image at all — the check precedes any image I/O. -/
theorem gap_mismatch_always_fails (argc : ℕ) (ms : List Monitor) (gaps : List ℚ)
    (h : (gaps.length : ℤ) ≠ (ms.length : ℤ) - 1) (img img2 : Img) :
    (runMain argc ms gaps img).isOk = false ∧
    runMain argc ms gaps img = runMain argc ms gaps img2 := by
  unfold runMain
  by_cases h3 : argc < 3
  · rw [if_pos h3, if_pos h3]
    exact ⟨rfl, rfl⟩
  · rw [if_neg h3, if_neg h3, if_pos h, if_pos h]
    exact ⟨rfl, rfl⟩

/-- C9 witness: two monitors with no gap entry fail identically for two
different source images. -/
theorem gap_mismatch_always_fails_witness :
    ((([] : List ℚ).length : ℤ) ≠ (wms.length : ℤ) - 1) ∧
    ((runMain 3 wms [] wimg).isOk = false ∧
     runMain 3 wms [] wimg = runMain 3 wms [] ⟨10, 10⟩) :=
  ⟨by decide, gap_mismatch_always_fails 3 wms [] (by decide) wimg ⟨10, 10⟩⟩

end CreateWallpaper
